import Mathlib

/-!
Shallow embedding of the terminal dungeon crawler (`src/game.py`).

The program's RNG (`random.choice`, `random.randint`, `random.shuffle`) is
modelled by an explicit stream of draws `Draws : Nat → Nat`, consumed one
value at a time; each draw is reduced modulo the size of the range it
selects from, so every stream yields a legal run.  `random.shuffle` is
modelled by the Fisher-Yates algorithm the Python library implements
(for i from n-1 downto 1: j = randint(0, i); swap l[i] l[j]).

The unbounded `while` loops of the source (`generate_dungeon`'s carving
walk, `fight`'s battle loop) are modelled with explicit fuel returning
`Option`; for `fight` the fuel `e.hp.toNat` is provably sufficient because
every damage draw is at least 1, and a theorem below shows the loop indeed
never exhausts it.

Machine integers: Python integers are unbounded, so positions use `Nat`
(with `Int` for signed deltas) and hit points use `Int` (they go negative
on the killing blow, as in the source).
-/

namespace Crawler

def WIDTH : Nat := 7
def HEIGHT : Nat := 5

abbrev Pos : Type := Nat × Nat

/-- The grid: HEIGHT rows of WIDTH booleans (`grid = [[False]*WIDTH for _ in range(HEIGHT)]`). -/
abbrev Grid : Type := List (List Bool)

/-- A stream of RNG draws. -/
abbrev Draws : Type := Nat → Nat

def cell (g : Grid) (r c : Nat) : Bool := (g.getD r []).getD c false

/-- `grid[r][c] = True`. -/
def setCell (g : Grid) (r c : Nat) : Grid := g.set r ((g.getD r []).set c true)

def initGrid : Grid := List.replicate HEIGHT (List.replicate WIDTH false)

/-- Legal moves from `(r, c)`: down, right, up, left, kept exactly in the
order the source appends them to `dirs`. -/
def carveDirs (r c : Nat) : List (Int × Int) :=
  (if r < HEIGHT - 1 then [((1 : Int), (0 : Int))] else []) ++
  (if c < WIDTH - 1 then [((0 : Int), (1 : Int))] else []) ++
  (if r > 0 then [((-1 : Int), (0 : Int))] else []) ++
  (if c > 0 then [((0 : Int), (-1 : Int))] else [])

/-- `weighted`: each forward move (`dr > 0 or dc > 0`) is repeated 3 times,
each backward move once. -/
def weightedDirs (r c : Nat) : List (Int × Int) :=
  (carveDirs r c).flatMap (fun d => List.replicate (if 0 < d.1 ∨ 0 < d.2 then 3 else 1) d)

/-- The random-walk carving loop (`while (r, c) != (HEIGHT-1, WIDTH-1)`),
with fuel; `none` models a run that has not reached the exit corner yet. -/
def carveLoop (s : Draws) : Nat → Nat → Nat → Grid → Nat → Option (Grid × Nat)
  | _, _, _, _, 0 => none
  | i, r, c, g, fuel + 1 =>
    if r = HEIGHT - 1 ∧ c = WIDTH - 1 then some (g, i)
    else
      let w := weightedDirs r c
      let d := w.getD (s i % w.length) (0, 0)
      let r2 := ((r : Int) + d.1).toNat
      let c2 := ((c : Int) + d.2).toNat
      let g2 := if cell g r2 c2 then g else setCell g r2 c2
      carveLoop s (i + 1) r2 c2 g2 fuel

def neighborDeltas : List (Int × Int) := [(0, 1), (0, -1), (1, 0), (-1, 0)]

def inBounds (r c : Int) : Bool :=
  decide (0 ≤ r) && decide (r < (HEIGHT : Int)) && decide (0 ≤ c) && decide (c < (WIDTH : Int))

/-- The source's inner `for dr, dc in [(0,1),(0,-1),(1,0),(-1,0)]` scan:
the candidate is carved iff some 4-neighbour is already a room. -/
def hasCarvedNeighbor (g : Grid) (r c : Nat) : Bool :=
  neighborDeltas.any (fun d =>
    let nr := (r : Int) + d.1
    let nc := (c : Int) + d.2
    inBounds nr nc && cell g nr.toNat nc.toNat)

/-- `for _ in range(WIDTH * HEIGHT // 3)`: two `randint` draws per attempt. -/
def extraRooms (s : Draws) : Nat → Grid → Nat → Grid × Nat
  | i, g, 0 => (g, i)
  | i, g, k + 1 =>
    let rr := s i % HEIGHT
    let rc := s (i + 1) % WIDTH
    let g2 := if ¬ cell g rr rc = true ∧ hasCarvedNeighbor g rr rc = true then setCell g rr rc else g
    extraRooms s (i + 2) g2 k

structure Enemy where
  name : String
  hp : Int
  atk : Nat
deriving DecidableEq

structure Item where
  key : String
  text : String
deriving DecidableEq

structure Room where
  enemy : Option Enemy
  item : Option Item
  visited : Bool
  desc : String
deriving DecidableEq

def ENEMIES : List Enemy :=
  [⟨"Goblin", 3, 1⟩, ⟨"Skeleton", 4, 2⟩, ⟨"Troll", 6, 2⟩, ⟨"Wraith", 5, 3⟩]

def ITEMS : List Item :=
  [⟨"sword", "a Sword (+2 ATK)"⟩, ⟨"potion", "a Healing Potion (+5 HP)"⟩,
   ⟨"shield", "a Shield (+3 max HP)"⟩, ⟨"dagger", "a Dagger (+1 ATK)"⟩]

/-- The `rooms` dict, as an association list in insertion order. -/
abbrev RoomList : Type := List (Pos × Room)

def lookupRoom : RoomList → Pos → Option Room
  | [], _ => none
  | (q, rm) :: rest, p => if p = q then some rm else lookupRoom rest p

/-- In-place mutation of the room stored at key `p`. -/
def updateRoom (rooms : RoomList) (p : Pos) (f : Room → Room) : RoomList :=
  rooms.map (fun e => if e.1 = p then (e.1, f e.2) else e)

/-- `for r in range(HEIGHT): for c in range(WIDTH): if grid[r][c]: rooms[(r,c)] = ...` -/
def buildRooms (g : Grid) : RoomList :=
  (List.range HEIGHT).flatMap (fun r =>
    (List.range WIDTH).filterMap (fun c =>
      if cell g r c then some ((r, c), (⟨none, none, false, ""⟩ : Room)) else none))

/-- One Fisher-Yates swap: exchange the entries at indices `i` and `j`.
Both indices are in bounds on every call the shuffle makes. -/
def swapIdx (l : List α) (i j : Nat) : List α :=
  match l[i]?, l[j]? with
  | some a, some b => (l.set i b).set j a
  | _, _ => l

def shuffleAux (s : Draws) : Nat → List α → Nat → List α × Nat
  | t, l, 0 => (l, t)
  | t, l, k + 1 => shuffleAux s (t + 1) (swapIdx l (k + 1) (s t % (k + 2))) k

/-- `random.shuffle`: Fisher-Yates, one draw per index from `n-1` down to `1`. -/
def shuffle (s : Draws) (t : Nat) (l : List α) : List α × Nat :=
  shuffleAux s t l (l.length - 1)

/-- `rooms[pos]["enemy"] = dict(random.choice(ENEMIES))`, one draw per room. -/
def placeEnemies (s : Draws) : Nat → RoomList → List Pos → RoomList × Nat
  | t, rooms, [] => (rooms, t)
  | t, rooms, p :: rest =>
    let e := ENEMIES.getD (s t % ENEMIES.length) ⟨"", 0, 0⟩
    placeEnemies s (t + 1) (updateRoom rooms p (fun rm => { rm with enemy := some e })) rest

/-- `item = item_pool[i % len(item_pool)]`, assigned cyclically, no draws. -/
def placeItems (pool : List Item) : Nat → RoomList → List Pos → RoomList
  | _, rooms, [] => rooms
  | idx, rooms, p :: rest =>
    let it := pool.getD (idx % pool.length) ⟨"", ""⟩
    placeItems pool (idx + 1) (updateRoom rooms p (fun rm => { rm with item := some it })) rest

def DESCS : List String :=
  ["A damp stone chamber. Water drips from the ceiling.",
   "A dusty room with cobwebs in every corner.",
   "A narrow passage with scratch marks on the walls.",
   "A cold room. Your breath is visible.",
   "A musty chamber with broken furniture.",
   "Glowing mushrooms light this cavern.",
   "An old storage room with empty barrels.",
   "The walls are covered in strange runes.",
   "A crossroads of crumbling passages.",
   "A quiet alcove with a mossy floor."]

/-- `for pos, room in rooms.items(): if not room["desc"]: room["desc"] = random.choice(descs)`. -/
def assignDescs (s : Draws) : Nat → RoomList → RoomList × Nat
  | t, [] => ([], t)
  | t, (p, rm) :: rest =>
    if rm.desc = "" then
      let rm2 := { rm with desc := DESCS.getD (s t % DESCS.length) "" }
      let rec2 := assignDescs s (t + 1) rest
      ((p, rm2) :: rec2.1, rec2.2)
    else
      let rec2 := assignDescs s t rest
      ((p, rm) :: rec2.1, rec2.2)

def startPos : Pos := (0, 0)
def exitPosition : Pos := (HEIGHT - 1, WIDTH - 1)

structure Dungeon where
  grid : Grid
  rooms : RoomList
  start : Pos
  exitPos : Pos
deriving DecidableEq

/-- Grid phase of `generate_dungeon`: the carving walk followed by the
extra-rooms pass; also returns the next draw index. -/
def genGrid (s : Draws) (fuel : Nat) : Option (Grid × Nat) :=
  match carveLoop s 0 0 0 (setCell initGrid 0 0) fuel with
  | none => none
  | some (g1, i1) => some (extraRooms s i1 g1 (WIDTH * HEIGHT / 3))

/-- Room phase of `generate_dungeon`: room records, start and exit texts,
enemy placement, item placement, and flavor descriptions, in source order. -/
def genRooms (s : Draws) (t : Nat) (g : Grid) : RoomList :=
  let rooms0 := buildRooms g
  let rooms1 := updateRoom rooms0 startPos
    (fun rm => { rm with desc := "The dungeon entrance. Faint light behind you.", visited := true })
  let rooms2 := updateRoom rooms1 exitPosition
    (fun rm => { rm with desc := "A grand door with golden runes — the EXIT!" })
  let placeable0 := (rooms2.map Prod.fst).filter
    (fun p => decide (p ≠ startPos ∧ p ≠ exitPosition))
  let sh1 := shuffle s t placeable0
  let placeable := sh1.1
  let nE := max 2 (placeable.length / 3)
  let pe := placeEnemies s sh1.2 rooms2 (placeable.take nE)
  let remaining0 := placeable.drop nE
  let sh2 := shuffle s pe.2 remaining0
  let remaining := sh2.1
  let nI := max 2 (remaining.length / 2)
  let sh3 := shuffle s sh2.2 ITEMS
  let rooms4 := placeItems sh3.1 0 pe.1 (remaining.take nI)
  (assignDescs s sh3.2 rooms4).1

/-- `generate_dungeon()`, threading the draw index through every phase. -/
def generate_dungeon (s : Draws) (fuel : Nat) : Option Dungeon :=
  match genGrid s fuel with
  | none => none
  | some (g, i2) => some ⟨g, genRooms s i2 g, startPos, exitPosition⟩

structure Player where
  hp : Int
  max_hp : Int
  atk : Nat
  pos : Pos
  inv : List String
deriving DecidableEq

structure GameState where
  grid : Grid
  rooms : RoomList
  player : Player
deriving DecidableEq

/-- `player = {"hp": 12, "max_hp": 12, "atk": 2, "pos": start, "inv": []}`. -/
def initPlayer (start : Pos) : Player := ⟨12, 12, 2, start, []⟩

def deltas (d : String) : Option (Int × Int) :=
  if d = "north" then some (-1, 0)
  else if d = "south" then some (1, 0)
  else if d = "east" then some (0, 1)
  else if d = "west" then some (0, -1)
  else none

/-- `move(direction)`: `some (st, b)` is a normal return with flag `b`;
`none` models the KeyError when the player's position is not in `rooms`
(unreachable in real play). -/
def move (st : GameState) (direction : String) : Option (GameState × Bool) :=
  match deltas direction with
  | none => some (st, false)
  | some d =>
    let nr := (st.player.pos.1 : Int) + d.1
    let nc := (st.player.pos.2 : Int) + d.2
    if ¬ (inBounds nr nc = true ∧ cell st.grid nr.toNat nc.toNat = true) then some (st, false)
    else
      match lookupRoom st.rooms st.player.pos with
      | none => none
      | some room =>
        if room.enemy.isSome then some (st, false)
        else
          let p2 : Pos := (nr.toNat, nc.toNat)
          some ({ st with
                  player := { st.player with pos := p2 },
                  rooms := updateRoom st.rooms p2 (fun rm => { rm with visited := true }) }, true)

/-- The battle loop (`while e["hp"] > 0 and player["hp"] > 0`), with fuel.
Returns `(player hp, enemy hp, enemy defeated, next draw index)`.
The guard is tested before fuel is consumed, so `none` arises only when
the fuel runs out with both sides still alive — which, the theorems below
show, never happens for fuel `ehp.toNat` since each damage draw is ≥ 1. -/
def fightLoop (s : Draws) (patk eatk : Nat) : Nat → Nat → Int → Int → Option (Int × Int × Bool × Nat)
  | 0, i, php, ehp =>
    if 0 < ehp ∧ 0 < php then none else some (php, ehp, false, i)
  | fuel + 1, i, php, ehp =>
    if 0 < ehp ∧ 0 < php then
      let dmg : Int := (1 + s i % patk : Nat)
      let ehp2 := ehp - dmg
      if ehp2 ≤ 0 then some (php, ehp2, true, i + 1)
      else
        let edmg : Int := (1 + s (i + 1) % eatk : Nat)
        let php2 := php - edmg
        if php2 ≤ 0 then some (php2, ehp2, false, i + 2)
        else fightLoop s patk eatk fuel (i + 2) php2 ehp2
    else some (php, ehp, false, i)

/-- `fight()`: resolves the whole encounter.  `random.randint(1, atk)` is
modelled as `1 + draw % atk` (equal to the inclusive range `[1, atk]` for
`atk ≥ 1`).  On defeat the room's enemy is cleared; if the player falls,
the enemy keeps its decremented hp (the source mutates the room's dict). -/
def fight (s : Draws) (i : Nat) (st : GameState) : Option (GameState × Nat) :=
  match lookupRoom st.rooms st.player.pos with
  | none => none
  | some room =>
    match room.enemy with
    | none => some (st, i)
    | some e =>
      match fightLoop s st.player.atk e.atk e.hp.toNat i st.player.hp e.hp with
      | none => none
      | some (php, ehp, defeated, i2) =>
        some ({ st with
                player := { st.player with hp := php },
                rooms := updateRoom st.rooms st.player.pos
                  (fun rm => { rm with enemy := if defeated then none else some { e with hp := ehp } }) }, i2)

/-- The pickup effects of the item catalog's lambdas, keyed as the source
dispatches them (`potion` defers, every other key mutates the player). -/
def itemEffect (key : String) (p : Player) : Player :=
  if key = "sword" then { p with atk := p.atk + 2 }
  else if key = "shield" then { p with max_hp := p.max_hp + 3, hp := p.hp + 3 }
  else if key = "dagger" then { p with atk := p.atk + 1 }
  else p

/-- `take()`: append the key to the inventory, apply the effect unless the
item is the potion, clear the room's item. -/
def take (st : GameState) : Option GameState :=
  match lookupRoom st.rooms st.player.pos with
  | none => none
  | some room =>
    match room.item with
    | none => some st
    | some it =>
      let p1 := { st.player with inv := st.player.inv ++ [it.key] }
      let p2 := if it.key = "potion" then p1 else itemEffect it.key p1
      some { st with
             player := p2,
             rooms := updateRoom st.rooms st.player.pos (fun rm => { rm with item := none }) }

/-- `use(item_name)`: heal by 5 clamped to `max_hp`, remove one potion.
Also returns the healed amount the source prints (`0` on the failure path). -/
def use (st : GameState) (item_name : String) : GameState × Int :=
  if item_name = "potion" ∧ "potion" ∈ st.player.inv then
    let newHp := min (st.player.hp + 5) st.player.max_hp
    ({ st with player := { st.player with hp := newHp, inv := st.player.inv.erase "potion" } },
     newHp - st.player.hp)
  else (st, 0)

/-- The four state-mutating commands of the game loop. -/
inductive Op where
  | move (direction : String)
  | fight
  | take
  | use (item_name : String)

def applyOp (s : Draws) (i : Nat) (st : GameState) : Op → Option GameState
  | Op.move d => (move st d).map Prod.fst
  | Op.fight => (fight s i st).map Prod.fst
  | Op.take => take st
  | Op.use n => some (use st n).1

/-- 4-adjacency of grid cells. -/
def Adj (p q : Pos) : Prop :=
  (p.1 = q.1 ∧ (p.2 = q.2 + 1 ∨ q.2 = p.2 + 1)) ∨
  (p.2 = q.2 ∧ (p.1 = q.1 + 1 ∨ q.1 = p.1 + 1))

/-- Reachability from the start cell through 4-adjacent carved cells. -/
inductive Reach (g : Grid) : Pos → Prop where
  | start : Reach g startPos
  | step {p q : Pos} : Reach g p → Adj p q → cell g q.1 q.2 = true → Reach g q

/-- Every carved cell is reachable from the start. -/
def Connected (g : Grid) : Prop := ∀ r c, cell g r c = true → Reach g (r, c)

/-- Well-formedness: the grid is HEIGHT rows of WIDTH cells each. -/
def GridWF (g : Grid) : Prop :=
  g.length = HEIGHT ∧ ∀ r, r < HEIGHT → (g.getD r []).length = WIDTH

/-! ### Concrete inputs used by the witnesses -/

/-- The all-zeros draw stream. -/
def s0 : Draws := fun _ => 0

/-- The dungeon generated by the all-zeros stream. -/
def D0 : Dungeon := (generate_dungeon s0 20).getD ⟨[], [], (0, 0), (0, 0)⟩

/-- A one-room state holding a live Goblin, player with atk 1 and hp 12. -/
def st2 : GameState :=
  ⟨[[true]], [((0, 0), ⟨some ⟨"Goblin", 3, 1⟩, none, true, ""⟩)], ⟨12, 12, 1, (0, 0), []⟩⟩

/-- The state `st2` reaches after the whole encounter is resolved. -/
def st2Final : GameState :=
  ⟨[[true]], [((0, 0), ⟨none, none, true, ""⟩)], ⟨10, 12, 1, (0, 0), []⟩⟩

/-- A state owning one potion with hp 10 of 12. -/
def stPotion : GameState :=
  ⟨[[true]], [((0, 0), ⟨none, none, true, ""⟩)], ⟨10, 12, 2, (0, 0), ["potion"]⟩⟩

/-- A state owning one potion at full hp. -/
def stFull : GameState :=
  ⟨[[true]], [((0, 0), ⟨none, none, true, ""⟩)], ⟨12, 12, 2, (0, 0), ["potion"]⟩⟩

/-- A state whose current room offers a sword. -/
def stItem : GameState :=
  ⟨[[true]], [((0, 0), ⟨none, some ⟨"sword", "a Sword (+2 ATK)"⟩, true, ""⟩)],
   ⟨12, 12, 2, (0, 0), []⟩⟩

/-! ### Helper lemmas -/

/-- Unfolding lemma for `updateRoom` on a cons cell. -/
theorem updateRoom_cons (pe : Pos) (rme : Room) (rest : RoomList) (p : Pos) (f : Room → Room) :
    updateRoom ((pe, rme) :: rest) p f =
      (if pe = p then (pe, f rme) else (pe, rme)) :: updateRoom rest p f := by
  simp only [updateRoom, List.map_cons]

/-- Updating key `q` rewrites exactly the value that `lookupRoom` finds at `q`. -/
theorem lookupRoom_updateRoom (rooms : RoomList) (q : Pos) (f : Room → Room) (p : Pos) :
    lookupRoom (updateRoom rooms q f) p =
      if p = q then (lookupRoom rooms p).map f else lookupRoom rooms p := by
  induction rooms with
  | nil => simp [lookupRoom, updateRoom]
  | cons e rest ih =>
    obtain ⟨pe, rme⟩ := e
    rw [updateRoom_cons]
    by_cases hpe : pe = q
    · rw [if_pos hpe]
      by_cases hpq : p = pe
      · have hq : p = q := hpq.trans hpe
        simp [lookupRoom, hpq, hq, hpe]
      · simp only [lookupRoom, if_neg hpq, ih]
    · rw [if_neg hpe]
      by_cases hpq : p = pe
      · have hq : ¬ p = q := fun h => hpe (hpq ▸ h)
        simp [lookupRoom, hpq, hq, hpe]
      · simp only [lookupRoom, if_neg hpq, ih]

/-- A successful lookup returns a stored entry. -/
theorem lookupRoom_mem (rooms : RoomList) (p : Pos) (rm : Room)
    (h : lookupRoom rooms p = some rm) : (p, rm) ∈ rooms := by
  induction rooms with
  | nil => simp [lookupRoom] at h
  | cons e rest ih =>
    obtain ⟨pe, rme⟩ := e
    by_cases hpq : p = pe
    · simp only [lookupRoom, if_pos hpq] at h
      cases h
      exact hpq ▸ List.mem_cons_self _ _
    · simp only [lookupRoom, if_neg hpq] at h
      exact List.mem_cons_of_mem _ (ih h)

/-! ### C5, C10: the potion -/

/-- C5: for every state with "potion" present in the inventory, use("potion")
removes exactly one instance of "potion" from the inventory, never raises hp
above max_hp, and the healed amount equals min(5, max_hp - hp_before). -/
theorem C5_use_potion_bound (st : GameState) (h : "potion" ∈ st.player.inv) :
    (use st "potion").1.player.inv.count "potion" + 1 = st.player.inv.count "potion" ∧
    (use st "potion").1.player.hp ≤ (use st "potion").1.player.max_hp ∧
    (use st "potion").2 = min 5 (st.player.max_hp - st.player.hp) ∧
    (use st "potion").1.player.hp = st.player.hp + (use st "potion").2 := by
  simp only [use]
  rw [if_pos (show True ∧ "potion" ∈ st.player.inv from ⟨trivial, h⟩)]
  refine ⟨?_, ?_, ?_, ?_⟩
  · dsimp only
    have h1 := List.count_erase_self "potion" st.player.inv
    have h2 : 0 < st.player.inv.count "potion" := List.count_pos_iff.mpr h
    omega
  · dsimp only
    exact min_le_right _ _
  · dsimp only
    rcases le_total (st.player.hp + 5) st.player.max_hp with hle | hle
    · rw [min_eq_left hle, min_eq_left (by omega : (5 : Int) ≤ st.player.max_hp - st.player.hp)]
      omega
    · rw [min_eq_right hle, min_eq_right (by omega : st.player.max_hp - st.player.hp ≤ (5 : Int))]
  · dsimp only
    omega

/-- Witness for C5 at the concrete state `stPotion`. -/
theorem C5_witness :
    (use stPotion "potion").1.player.inv.count "potion" + 1 = stPotion.player.inv.count "potion" ∧
    (use stPotion "potion").1.player.hp ≤ (use stPotion "potion").1.player.max_hp ∧
    (use stPotion "potion").2 = min 5 (stPotion.player.max_hp - stPotion.player.hp) ∧
    (use stPotion "potion").1.player.hp = stPotion.player.hp + (use stPotion "potion").2 :=
  C5_use_potion_bound stPotion (by decide)

/-- C10: with "potion" in the inventory and hp already at max_hp, use("potion")
still removes one potion while leaving hp unchanged (healed amount 0). -/
theorem C10_potion_at_full_hp (st : GameState) (h : "potion" ∈ st.player.inv)
    (hfull : st.player.hp = st.player.max_hp) :
    (use st "potion").1.player.hp = st.player.hp ∧
    (use st "potion").2 = 0 ∧
    (use st "potion").1.player.inv.count "potion" + 1 = st.player.inv.count "potion" := by
  simp only [use]
  rw [if_pos (show True ∧ "potion" ∈ st.player.inv from ⟨trivial, h⟩)]
  refine ⟨?_, ?_, ?_⟩
  · dsimp only
    rw [hfull, min_eq_right (by omega)]
  · dsimp only
    rw [hfull, min_eq_right (by omega)]
    omega
  · dsimp only
    have h1 := List.count_erase_self "potion" st.player.inv
    have h2 : 0 < st.player.inv.count "potion" := List.count_pos_iff.mpr h
    omega

/-- Witness for C10 at the concrete state `stFull`. -/
theorem C10_witness :
    (use stFull "potion").1.player.hp = stFull.player.hp ∧
    (use stFull "potion").2 = 0 ∧
    (use stFull "potion").1.player.inv.count "potion" + 1 = stFull.player.inv.count "potion" :=
  C10_potion_at_full_hp stFull (by decide) (by decide)

/-! ### C4, C7: movement -/

/-- C4: whenever the player's current room holds an enemy (in particular a
live one with hp > 0), move returns failure in every direction and leaves
the whole state unchanged. -/
theorem C4_move_blocked (st : GameState) (room : Room) (e : Enemy)
    (hr : lookupRoom st.rooms st.player.pos = some room)
    (he : room.enemy = some e) (hhp : 0 < e.hp) (direction : String) :
    move st direction = some (st, false) := by
  rcases hd : deltas direction with _ | d
  · simp [move, hd]
  · simp only [move, hd]
    by_cases hv : inBounds ((st.player.pos.1 : Int) + d.1) ((st.player.pos.2 : Int) + d.2) = true ∧
        cell st.grid ((st.player.pos.1 : Int) + d.1).toNat ((st.player.pos.2 : Int) + d.2).toNat = true
    · rw [if_neg (not_not_intro hv)]
      simp [hr, he]
    · rw [if_pos hv]

/-- Witness for C4 at the concrete state `st2` (a live Goblin in the room). -/
theorem C4_witness : move st2 "east" = some (st2, false) :=
  C4_move_blocked st2 ⟨some ⟨"Goblin", 3, 1⟩, none, true, ""⟩ ⟨"Goblin", 3, 1⟩
    (by decide) rfl (by decide) "east"

/-- C7: if the direction is not one of the four cardinal names, or the
destination cell fails the bounds-and-carved test, move returns false and
mutates nothing. -/
theorem C7_move_rejects_invalid (st : GameState) (direction : String)
    (h : ∀ d, deltas direction = some d →
      ¬ (inBounds ((st.player.pos.1 : Int) + d.1) ((st.player.pos.2 : Int) + d.2) = true ∧
         cell st.grid ((st.player.pos.1 : Int) + d.1).toNat ((st.player.pos.2 : Int) + d.2).toNat = true)) :
    move st direction = some (st, false) := by
  rcases hd : deltas direction with _ | d
  · simp [move, hd]
  · simp only [move, hd]
    rw [if_pos (h d hd)]

/-- Witness for C7: move("north") from the start cell (0,0) fails (out of
bounds) and leaves the state unchanged. -/
theorem C7_witness : move stItem "north" = some (stItem, false) :=
  C7_move_rejects_invalid stItem "north" (by
    intro d hd
    have hne : deltas "north" = some (-1, 0) := by decide
    rw [hne] at hd
    cases hd
    decide)

/-! ### C8: item pickup -/

/-- C8: if the current room holds an item, take clears the room's item, and
calling take again from the resulting state is a no-op. -/
theorem C8_take_idempotent (st : GameState) (room : Room) (it : Item)
    (hr : lookupRoom st.rooms st.player.pos = some room)
    (hi : room.item = some it) :
    ∃ st1, take st = some st1 ∧
      (∃ room1, lookupRoom st1.rooms st1.player.pos = some room1 ∧ room1.item = none) ∧
      take st1 = some st1 := by
  have hpos : ∀ k p, (itemEffect k p).pos = p.pos := by
    intro k p
    unfold itemEffect
    split_ifs <;> rfl
  set P : Player := (if it.key = "potion" then ({ st.player with inv := st.player.inv ++ [it.key] })
    else itemEffect it.key { st.player with inv := st.player.inv ++ [it.key] }) with hP
  set R : RoomList := updateRoom st.rooms st.player.pos (fun rm => { rm with item := none }) with hR
  have h1 : take st = some { st with player := P, rooms := R } := by
    simp only [take, hr, hi, hP, hR]
  have hPpos : P.pos = st.player.pos := by
    rw [hP]
    by_cases hk : it.key = "potion" <;> simp [hk, hpos]
  have h2 : lookupRoom R st.player.pos = some { room with item := none } := by
    rw [hR, lookupRoom_updateRoom, if_pos rfl, hr]
    rfl
  refine ⟨_, h1, ⟨{ room with item := none }, ?_, rfl⟩, ?_⟩
  · show lookupRoom R P.pos = _
    rw [hPpos]
    exact h2
  · show take { st with player := P, rooms := R } = _
    simp only [take]
    rw [hPpos, h2]

/-- Witness for C8 at the concrete state `stItem` (a sword on the floor). -/
theorem C8_witness :
    ∃ st1, take stItem = some st1 ∧
      (∃ room1, lookupRoom st1.rooms st1.player.pos = some room1 ∧ room1.item = none) ∧
      take st1 = some st1 :=
  C8_take_idempotent stItem ⟨none, some ⟨"sword", "a Sword (+2 ATK)"⟩, true, ""⟩
    ⟨"sword", "a Sword (+2 ATK)"⟩ (by decide) rfl

/-! ### C2, C6: combat -/

/-- The battle loop always returns within `ehp.toNat` iterations, ending with
the enemy's hp ≤ 0 or the player's hp ≤ 0, because every damage draw is ≥ 1. -/
theorem fightLoop_isSome (s : Draws) (patk eatk : Nat) :
    ∀ fuel i (php ehp : Int), ehp.toNat ≤ fuel →
      ∃ php2 ehp2 defeated i2,
        fightLoop s patk eatk fuel i php ehp = some (php2, ehp2, defeated, i2) ∧
        (ehp2 ≤ 0 ∨ php2 ≤ 0) := by
  intro fuel
  induction fuel with
  | zero =>
    intro i php ehp hf
    by_cases hg : 0 < ehp ∧ 0 < php
    · omega
    · refine ⟨php, ehp, false, i, ?_, by omega⟩
      simp only [fightLoop]
      rw [if_neg hg]
  | succ fuel ih =>
    intro i php ehp hf
    by_cases hg : 0 < ehp ∧ 0 < php
    · simp only [fightLoop]
      rw [if_pos hg]
      split_ifs with h1 h2
      · exact ⟨_, _, _, _, rfl, Or.inl h1⟩
      · exact ⟨_, _, _, _, rfl, Or.inr h2⟩
      · exact ih _ _ _ (by omega)
    · refine ⟨php, ehp, false, i, ?_, by omega⟩
      simp only [fightLoop]
      rw [if_neg hg]

/-- C6: with an enemy in the current room (and both attack stats ≥ 1, as the
claim assumes), fight terminates — it returns a state, with either the
enemy's hp ≤ 0 (enemy slain and removed, or untouched dead enemy) or the
player's hp ≤ 0. -/
theorem C6_fight_terminates (s : Draws) (i : Nat) (st : GameState) (room : Room) (e : Enemy)
    (hr : lookupRoom st.rooms st.player.pos = some room)
    (he : room.enemy = some e)
    (hpatk : 1 ≤ st.player.atk) (heatk : 1 ≤ e.atk) :
    ∃ st1 i1, fight s i st = some (st1, i1) ∧
      (st1.player.hp ≤ 0 ∨
        ∃ room1, lookupRoom st1.rooms st.player.pos = some room1 ∧
          (room1.enemy = none ∨ ∃ e1, room1.enemy = some e1 ∧ e1.hp ≤ 0)) := by
  obtain ⟨php2, ehp2, defeated, i2, hloop, hout⟩ :=
    fightLoop_isSome s st.player.atk e.atk e.hp.toNat i st.player.hp e.hp (le_refl _)
  refine ⟨{ st with
      player := { st.player with hp := php2 },
      rooms := updateRoom st.rooms st.player.pos
        (fun rm => { rm with enemy := if defeated then none else some { e with hp := ehp2 } }) },
    i2, ?_, ?_⟩
  · simp only [fight, hr, he, hloop]
  · rcases hout with hE | hP
    · right
      refine ⟨{ room with enemy := if defeated then none else some { e with hp := ehp2 } }, ?_, ?_⟩
      · dsimp only
        rw [lookupRoom_updateRoom, if_pos rfl, hr]
        rfl
      · cases defeated
        · right
          exact ⟨_, rfl, hE⟩
        · left
          rfl
    · left
      exact hP

/-- Witness for C6 at the concrete state `st2`. -/
theorem C6_witness :
    ∃ st1 i1, fight s0 0 st2 = some (st1, i1) ∧
      (st1.player.hp ≤ 0 ∨
        ∃ room1, lookupRoom st1.rooms st2.player.pos = some room1 ∧
          (room1.enemy = none ∨ ∃ e1, room1.enemy = some e1 ∧ e1.hp ≤ 0)) :=
  C6_fight_terminates s0 0 st2 ⟨some ⟨"Goblin", 3, 1⟩, none, true, ""⟩ ⟨"Goblin", 3, 1⟩
    (by decide) rfl (by decide) (by decide)

/-- C2 counterexample: with atk 1 on both sides, enemy hp 3 and player hp 12,
the encounter ends with player hp 10 after 5 draws (3 player attacks and only
2 enemy hits), not hp 9 as the claim states. -/
theorem C2_counterexample :
    (fight s0 0 st2).map (fun r => (r.1.player.hp, r.2)) = some (10, 5) ∧ ¬ (10 : Int) = 9 :=
  ⟨by decide, by decide⟩

/-- C2 as amended: for every draw stream, the atk-1 player defeats the hp-3
atk-1 enemy in exactly 3 attacks with exactly 2 intervening enemy hits of 1
damage each (5 draws total), ending at hp 10 with the enemy removed. -/
theorem C2_encounter_trace (s : Draws) (i : Nat) :
    fight s i st2 = some (st2Final, i + 5) := by
  simp [fight, st2, st2Final, lookupRoom, fightLoop, updateRoom, Nat.mod_one]

/-! ### C9: visited is monotone -/

/-- Updating a room with a function that preserves (or sets) the visited
flag keeps every already-visited room visited. -/
theorem visited_after_update (rooms : RoomList) (q : Pos) (f : Room → Room)
    (hf : ∀ rm, (f rm).visited = rm.visited ∨ (f rm).visited = true)
    (pos : Pos) (rm : Room) (hr : lookupRoom rooms pos = some rm) (hv : rm.visited = true) :
    ∃ rm1, lookupRoom (updateRoom rooms q f) pos = some rm1 ∧ rm1.visited = true := by
  rw [lookupRoom_updateRoom]
  by_cases hpq : pos = q
  · rw [if_pos hpq, hr]
    refine ⟨f rm, rfl, ?_⟩
    rcases hf rm with h | h
    · rw [h]
      exact hv
    · exact h
  · rw [if_neg hpq]
    exact ⟨rm, hr, hv⟩

/-- C9: a room whose visited flag is true keeps it true after every
operation (move, fight, take, use). -/
theorem C9_visited_monotone (s : Draws) (i : Nat) (st : GameState) (op : Op) (st1 : GameState)
    (hop : applyOp s i st op = some st1)
    (pos : Pos) (rm : Room)
    (hr : lookupRoom st.rooms pos = some rm) (hv : rm.visited = true) :
    ∃ rm1, lookupRoom st1.rooms pos = some rm1 ∧ rm1.visited = true := by
  cases op with
  | move d =>
    simp only [applyOp, Option.map_eq_some'] at hop
    obtain ⟨pair, hmv, hfst⟩ := hop
    subst hfst
    simp only [move] at hmv
    split at hmv
    · cases hmv
      exact ⟨rm, hr, hv⟩
    · split at hmv
      · cases hmv
        exact ⟨rm, hr, hv⟩
      · split at hmv
        · cases hmv
        · split at hmv
          · cases hmv
            exact ⟨rm, hr, hv⟩
          · cases hmv
            dsimp only
            refine visited_after_update _ _ _ ?_ _ _ hr hv
            intro rm0
            exact Or.inr rfl
  | fight =>
    simp only [applyOp, Option.map_eq_some'] at hop
    obtain ⟨pair, hmv, hfst⟩ := hop
    subst hfst
    simp only [fight] at hmv
    split at hmv
    · cases hmv
    · split at hmv
      · cases hmv
        exact ⟨rm, hr, hv⟩
      · split at hmv
        · cases hmv
        · cases hmv
          dsimp only
          refine visited_after_update _ _ _ ?_ _ _ hr hv
          intro rm0
          exact Or.inl rfl
  | take =>
    simp only [applyOp, take] at hop
    split at hop
    · cases hop
    · split at hop
      · cases hop
        exact ⟨rm, hr, hv⟩
      · cases hop
        dsimp only
        refine visited_after_update _ _ _ ?_ _ _ hr hv
        intro rm0
        exact Or.inl rfl
  | use n =>
    simp only [applyOp, use] at hop
    split at hop
    · cases hop
      exact ⟨rm, hr, hv⟩
    · cases hop
      exact ⟨rm, hr, hv⟩

/-- Witness for C9: using an unusable item leaves the visited room visited. -/
theorem C9_witness :
    ∃ rm1, lookupRoom stItem.rooms (0, 0) = some rm1 ∧ rm1.visited = true :=
  C9_visited_monotone s0 0 stItem (Op.use "sword") stItem (by decide) (0, 0)
    ⟨none, some ⟨"sword", "a Sword (+2 ATK)"⟩, true, ""⟩ (by decide) rfl

/-! ### C1: connectivity of every generated grid -/

/-- getD after set. -/
theorem getD_set_list (l : List α) (i j : Nat) (x d : α) :
    (l.set i x).getD j d = if i = j ∧ j < l.length then x else l.getD j d := by
  simp only [List.getD_eq_getElem?_getD, List.getElem?_set]
  by_cases hij : i = j
  · subst hij
    by_cases hi : i < l.length
    · simp [hi]
    · simp [hi, List.getElem?_eq_none (Nat.le_of_not_lt hi)]
  · simp [hij]

theorem initGrid_wf : GridWF initGrid := by
  constructor
  · simp [initGrid, HEIGHT]
  · intro r hr
    rw [initGrid, List.getD_eq_getElem?_getD, List.getElem?_replicate, if_pos hr]
    simp

theorem getD_mem_or_default (l : List α) (n : Nat) (d : α) :
    l.getD n d ∈ l ∨ l.getD n d = d := by
  by_cases h : n < l.length
  · left
    rw [List.getD_eq_getElem?_getD, List.getElem?_eq_getElem h]
    exact List.getElem_mem h
  · right
    exact List.getD_eq_default _ _ (Nat.le_of_not_lt h)

theorem cell_initGrid (r c : Nat) : cell initGrid r c = false := by
  rw [cell, initGrid]
  rcases getD_mem_or_default (List.replicate HEIGHT (List.replicate WIDTH false)) r [] with hm | he
  · rw [List.eq_of_mem_replicate hm]
    rcases getD_mem_or_default (List.replicate WIDTH false) c false with hm2 | he2
    · exact List.eq_of_mem_replicate hm2
    · exact he2
  · rw [he]
    rfl

theorem setCell_wf (g : Grid) (r c : Nat) (hwf : GridWF g) : GridWF (setCell g r c) := by
  obtain ⟨h1, h2⟩ := hwf
  constructor
  · simpa [setCell] using h1
  · intro a ha
    rw [setCell, getD_set_list]
    split_ifs with h
    · obtain ⟨hra, _⟩ := h
      rw [List.length_set]
      exact h2 r (by omega)
    · exact h2 a ha

theorem cell_setCell (g : Grid) (hwf : GridWF g) (r c : Nat)
    (hr : r < HEIGHT) (hc : c < WIDTH) (a b : Nat) :
    cell (setCell g r c) a b = if r = a ∧ c = b then true else cell g a b := by
  obtain ⟨h1, h2⟩ := hwf
  rw [cell, setCell, getD_set_list]
  by_cases hra : r = a
  · subst hra
    have hlen : r < g.length := h1 ▸ hr
    rw [if_pos ⟨rfl, hlen⟩, getD_set_list]
    have hclen : c < (g.getD r []).length := by
      rw [h2 r hr]
      exact hc
    by_cases hcb : c = b
    · subst hcb
      rw [if_pos ⟨rfl, hclen⟩, if_pos ⟨rfl, rfl⟩]
    · rw [if_neg (by tauto), if_neg (by tauto)]
      rfl
  · rw [if_neg (by tauto), if_neg (by tauto)]
    rfl

theorem cell_true_bounds (g : Grid) (hwf : GridWF g) (r c : Nat)
    (h : cell g r c = true) : r < HEIGHT ∧ c < WIDTH := by
  obtain ⟨h1, h2⟩ := hwf
  by_cases hr : r < HEIGHT
  · by_cases hc : c < WIDTH
    · exact ⟨hr, hc⟩
    · exfalso
      have hlen : (g.getD r []).length ≤ c := by
        rw [h2 r hr]
        omega
      rw [cell, List.getD_eq_default _ _ hlen] at h
      cases h
  · exfalso
    have hlen : g.length ≤ r := by omega
    rw [cell, List.getD_eq_default _ _ hlen] at h
    rw [show ([] : List Bool).getD c false = false from rfl] at h
    cases h

/-- Reachability is monotone under growing the grid. -/
theorem Reach.mono {g g2 : Grid} (hsub : ∀ r c, cell g r c = true → cell g2 r c = true)
    {p : Pos} (h : Reach g p) : Reach g2 p := by
  induction h with
  | start => exact Reach.start
  | step _ hadj hc ih => exact Reach.step ih hadj (hsub _ _ hc)

/-- Carving a cell adjacent to a carved cell preserves connectivity. -/
theorem connected_setCell (g : Grid) (hwf : GridWF g) (hconn : Connected g)
    (r c : Nat) (hr : r < HEIGHT) (hc : c < WIDTH)
    (p : Pos) (hp : cell g p.1 p.2 = true) (hadj : Adj p (r, c)) :
    Connected (setCell g r c) := by
  have hsub : ∀ a b, cell g a b = true → cell (setCell g r c) a b = true := by
    intro a b hab
    rw [cell_setCell g hwf r c hr hc]
    split_ifs with hx
    · rfl
    · exact hab
  obtain ⟨p1, p2⟩ := p
  intro a b hab
  rw [cell_setCell g hwf r c hr hc] at hab
  split_ifs at hab with hx
  · obtain ⟨ha, hb⟩ := hx
    subst ha
    subst hb
    refine Reach.step (Reach.mono hsub (hconn p1 p2 hp)) hadj ?_
    rw [cell_setCell g hwf r c hr hc, if_pos ⟨rfl, rfl⟩]
  · exact Reach.mono hsub (hconn a b hab)

theorem mem_weightedDirs (r c : Nat) (d : Int × Int) (h : d ∈ weightedDirs r c) :
    d ∈ carveDirs r c := by
  rw [weightedDirs, List.mem_flatMap] at h
  obtain ⟨a, ha, hd⟩ := h
  rw [List.eq_of_mem_replicate hd]
  exact ha

theorem mem_carveDirs_cases (r c : Nat) (d : Int × Int) (h : d ∈ carveDirs r c) :
    (d = (1, 0) ∧ r < HEIGHT - 1) ∨ (d = (0, 1) ∧ c < WIDTH - 1) ∨
    (d = (-1, 0) ∧ 0 < r) ∨ (d = (0, -1) ∧ 0 < c) := by
  simp only [carveDirs, List.mem_append] at h
  rcases h with ((h | h) | h) | h
  · by_cases h1 : r < HEIGHT - 1
    · rw [if_pos h1, List.mem_singleton] at h
      exact Or.inl ⟨h, h1⟩
    · rw [if_neg h1] at h
      exact absurd h (List.not_mem_nil d)
  · by_cases h1 : c < WIDTH - 1
    · rw [if_pos h1, List.mem_singleton] at h
      exact Or.inr (Or.inl ⟨h, h1⟩)
    · rw [if_neg h1] at h
      exact absurd h (List.not_mem_nil d)
  · by_cases h1 : r > 0
    · rw [if_pos h1, List.mem_singleton] at h
      exact Or.inr (Or.inr (Or.inl ⟨h, h1⟩))
    · rw [if_neg h1] at h
      exact absurd h (List.not_mem_nil d)
  · by_cases h1 : c > 0
    · rw [if_pos h1, List.mem_singleton] at h
      exact Or.inr (Or.inr (Or.inr ⟨h, h1⟩))
    · rw [if_neg h1] at h
      exact absurd h (List.not_mem_nil d)

theorem carveDirs_spec (r c : Nat) (hr : r < HEIGHT) (hc : c < WIDTH) (d : Int × Int)
    (h : d ∈ carveDirs r c) :
    ((r : Int) + d.1).toNat < HEIGHT ∧ ((c : Int) + d.2).toNat < WIDTH ∧
    Adj (r, c) (((r : Int) + d.1).toNat, ((c : Int) + d.2).toNat) := by
  have h5 : HEIGHT = 5 := rfl
  have h7 : WIDTH = 7 := rfl
  rcases mem_carveDirs_cases r c d h with ⟨hd, hb⟩ | ⟨hd, hb⟩ | ⟨hd, hb⟩ | ⟨hd, hb⟩ <;>
    subst hd <;>
    refine ⟨by omega, by omega, ?_⟩ <;>
    · simp only [Adj]
      omega

/-- Invariant of the carving walk: the grid stays well-formed and connected. -/
theorem carveLoop_inv (s : Draws) :
    ∀ fuel i r c g g2 i2,
      GridWF g → r < HEIGHT → c < WIDTH → cell g r c = true → Connected g →
      carveLoop s i r c g fuel = some (g2, i2) →
      GridWF g2 ∧ Connected g2 := by
  intro fuel
  induction fuel with
  | zero =>
    intro i r c g g2 i2 _ _ _ _ _ h
    cases h
  | succ fuel ih =>
    intro i r c g g2 i2 hwf hr hc hcell hconn h
    simp only [carveLoop] at h
    by_cases hend : r = HEIGHT - 1 ∧ c = WIDTH - 1
    · rw [if_pos hend] at h
      cases h
      exact ⟨hwf, hconn⟩
    · rw [if_neg hend] at h
      set w := weightedDirs r c with hw
      set d := w.getD (s i % w.length) ((0 : Int), (0 : Int)) with hd
      set r2 := ((r : Int) + d.1).toNat with hr2
      set c2 := ((c : Int) + d.2).toNat with hc2
      by_cases hcg : cell g r2 c2 = true
      · rw [if_pos hcg] at h
        obtain ⟨hb1, hb2⟩ := cell_true_bounds g hwf r2 c2 hcg
        exact ih _ _ _ _ _ _ hwf hb1 hb2 hcg hconn h
      · rw [if_neg hcg] at h
        have hmem : d ∈ carveDirs r c := by
          rcases getD_mem_or_default w (s i % w.length) ((0 : Int), (0 : Int)) with hm | h0
          · rw [← hd] at hm
            rw [hw] at hm
            exact mem_weightedDirs r c d hm
          · exfalso
            apply hcg
            rw [hr2, hc2, hd, h0]
            simpa using hcell
        obtain ⟨hb1, hb2, hadj⟩ := carveDirs_spec r c hr hc d hmem
        rw [← hr2] at hb1 hadj
        rw [← hc2] at hb2 hadj
        have hwf2 := setCell_wf g r2 c2 hwf
        have hcell2 : cell (setCell g r2 c2) r2 c2 = true := by
          rw [cell_setCell g hwf r2 c2 hb1 hb2, if_pos ⟨rfl, rfl⟩]
        have hconn2 := connected_setCell g hwf hconn r2 c2 hb1 hb2 (r, c) hcell hadj
        exact ih _ _ _ _ _ _ hwf2 hb1 hb2 hcell2 hconn2 h

theorem hasCarvedNeighbor_spec (g : Grid) (r c : Nat)
    (h : hasCarvedNeighbor g r c = true) :
    ∃ p : Pos, cell g p.1 p.2 = true ∧ Adj p (r, c) := by
  rw [hasCarvedNeighbor, List.any_eq_true] at h
  obtain ⟨d, hd, hcond⟩ := h
  rw [Bool.and_eq_true] at hcond
  obtain ⟨hin, hcell⟩ := hcond
  rw [inBounds] at hin
  simp only [Bool.and_eq_true, decide_eq_true_eq] at hin
  obtain ⟨⟨⟨h0r, hrH⟩, h0c⟩, hcW⟩ := hin
  fin_cases hd
  · refine ⟨(((r : Int) + 0).toNat, ((c : Int) + 1).toNat), hcell, ?_⟩
    simp only [Adj]
    omega
  · refine ⟨(((r : Int) + 0).toNat, ((c : Int) + -1).toNat), hcell, ?_⟩
    simp only [Adj]
    omega
  · refine ⟨(((r : Int) + 1).toNat, ((c : Int) + 0).toNat), hcell, ?_⟩
    simp only [Adj]
    omega
  · refine ⟨(((r : Int) + -1).toNat, ((c : Int) + 0).toNat), hcell, ?_⟩
    simp only [Adj]
    omega

/-- Invariant of the extra-rooms phase: connectivity is preserved because a
candidate is carved only when 4-adjacent to an existing room. -/
theorem extraRooms_inv (s : Draws) :
    ∀ k i g, GridWF g → Connected g →
      GridWF (extraRooms s i g k).1 ∧ Connected (extraRooms s i g k).1 := by
  intro k
  induction k with
  | zero =>
    intro i g hwf hconn
    exact ⟨hwf, hconn⟩
  | succ k ih =>
    intro i g hwf hconn
    simp only [extraRooms]
    set rr := s i % HEIGHT with hrr
    set rc := s (i + 1) % WIDTH with hrc
    have hrrH : rr < HEIGHT := Nat.mod_lt _ (by decide)
    have hrcW : rc < WIDTH := Nat.mod_lt _ (by decide)
    by_cases hcond : ¬ cell g rr rc = true ∧ hasCarvedNeighbor g rr rc = true
    · rw [if_pos hcond]
      obtain ⟨p, hp, hadj⟩ := hasCarvedNeighbor_spec g rr rc hcond.2
      exact ih _ _ (setCell_wf g rr rc hwf)
        (connected_setCell g hwf hconn rr rc hrrH hrcW p hp hadj)
    · rw [if_neg hcond]
      exact ih _ _ hwf hconn

/-- C1: for every draw stream and fuel, a dungeon returned by
generate_dungeon has every carved cell reachable from the start (0,0) by a
path of 4-adjacent carved cells. -/
theorem C1_connectivity (s : Draws) (fuel : Nat) (d : Dungeon)
    (h : generate_dungeon s fuel = some d) :
    ∀ r c, cell d.grid r c = true → Reach d.grid (r, c) := by
  rw [generate_dungeon.eq_def] at h
  split at h
  · cases h
  · next g i2 heq =>
    cases h
    rw [genGrid.eq_def] at heq
    split at heq
    · cases heq
    · next g1 i1 hcarve =>
      injection heq with hpair
      have hg : (extraRooms s i1 g1 (WIDTH * HEIGHT / 3)).1 = g := congrArg Prod.fst hpair
      have hwf0 : GridWF (setCell initGrid 0 0) := setCell_wf initGrid 0 0 initGrid_wf
      have hcell0 : cell (setCell initGrid 0 0) 0 0 = true := by
        rw [cell_setCell initGrid initGrid_wf 0 0 (by decide) (by decide), if_pos ⟨rfl, rfl⟩]
      have hconn0 : Connected (setCell initGrid 0 0) := by
        intro a b hab
        rw [cell_setCell initGrid initGrid_wf 0 0 (by decide) (by decide)] at hab
        split_ifs at hab with h00
        · obtain ⟨ha, hb⟩ := h00
          subst ha
          subst hb
          exact Reach.start
        · rw [cell_initGrid] at hab
          cases hab
      obtain ⟨hwfC, hconnC⟩ :=
        carveLoop_inv s fuel 0 0 0 _ g1 i1 hwf0 (by decide) (by decide) hcell0 hconn0 hcarve
      obtain ⟨hwfE, hconnE⟩ := extraRooms_inv s (WIDTH * HEIGHT / 3) i1 g1 hwfC hconnC
      rw [hg] at hconnE
      intro r c hrc
      exact hconnE r c hrc

/-- Witness for C1: in the dungeon generated from the all-zeros stream, the
carved exit corner (4,6) is reachable from the start. -/
theorem C1_witness : Reach D0.grid (4, 6) :=
  C1_connectivity s0 20 D0 (by decide) 4 6 (by decide)

/-! ### C3: enemy rooms and item rooms are disjoint -/

/-- Replacing the element at a valid index trades one count for another. -/
theorem count_set_add [DecidableEq α] (l : List α) (i : Nat) (a b x : α)
    (h : l[i]? = some a) :
    (l.set i b).count x + (if a = x then 1 else 0) =
      l.count x + (if b = x then 1 else 0) := by
  have hi : i < l.length := by
    by_contra hc
    rw [List.getElem?_eq_none (Nat.le_of_not_lt hc)] at h
    cases h
  have ha : l[i] = a := by
    rw [List.getElem?_eq_getElem hi] at h
    injection h
  have hdecomp : l = l.take i ++ l[i] :: l.drop (i + 1) := by
    rw [← List.drop_eq_getElem_cons hi, List.take_append_drop]
  rw [List.set_eq_take_cons_drop b hi]
  conv_rhs => rw [hdecomp]
  rw [List.count_append, List.count_append, List.count_cons, List.count_cons, ha]
  simp only [beq_iff_eq]
  split_ifs <;> omega

/-- A Fisher-Yates swap permutes the list. -/
theorem swapIdx_perm [DecidableEq α] (l : List α) (i j : Nat) :
    (swapIdx l i j).Perm l := by
  unfold swapIdx
  rcases hi : l[i]? with _ | a <;> rcases hj : l[j]? with _ | b
  · exact List.Perm.refl l
  · exact List.Perm.refl l
  · exact List.Perm.refl l
  · show ((l.set i b).set j a).Perm l
    have hjlen : j < l.length := by
      by_contra hc
      rw [List.getElem?_eq_none (Nat.le_of_not_lt hc)] at hj
      cases hj
    have h2 : (l.set i b)[j]? = some b := by
      rw [List.getElem?_set]
      split_ifs with h1 h1'
      · rfl
      · exfalso
        subst h1
        exact h1' hjlen
      · exact hj
    rw [List.perm_iff_count]
    intro x
    have hA := count_set_add l i a b x hi
    have hB := count_set_add (l.set i b) j b a x h2
    split_ifs at hA hB <;> omega

theorem shuffleAux_perm [DecidableEq α] (s : Draws) :
    ∀ k t (l : List α), ((shuffleAux s t l k).1).Perm l := by
  intro k
  induction k with
  | zero =>
    intro t l
    exact List.Perm.refl l
  | succ k ih =>
    intro t l
    exact (ih (t + 1) (swapIdx l (k + 1) (s t % (k + 2)))).trans
      (swapIdx_perm l (k + 1) (s t % (k + 2)))

/-- `random.shuffle` returns a permutation of its input. -/
theorem shuffle_perm [DecidableEq α] (s : Draws) (t : Nat) (l : List α) :
    ((shuffle s t l).1).Perm l :=
  shuffleAux_perm s (l.length - 1) t l

/-- Updating a room's contents never changes the key sequence. -/
theorem updateRoom_keys (rooms : RoomList) (p : Pos) (f : Room → Room) :
    (updateRoom rooms p f).map Prod.fst = rooms.map Prod.fst := by
  induction rooms with
  | nil => rfl
  | cons e rest ih =>
    obtain ⟨pe, rme⟩ := e
    rw [updateRoom_cons]
    by_cases hpe : pe = p
    · rw [if_pos hpe]
      simp only [List.map_cons]
      rw [ih]
    · rw [if_neg hpe]
      simp only [List.map_cons]
      rw [ih]

/-- Any key produced by row `r` of the room-building scan has first component `r`. -/
theorem key_first_of_mem (g : Grid) (r : Nat) (x : Pos)
    (hx : x ∈ (List.range WIDTH).filterMap
      (fun c => Option.map Prod.fst
        (if cell g r c then some ((r, c), (⟨none, none, false, ""⟩ : Room)) else none))) :
    x.1 = r := by
  rw [List.mem_filterMap] at hx
  obtain ⟨c, _, hc⟩ := hx
  split_ifs at hc with hcell
  · rw [Option.map_some'] at hc
    injection hc with hc
    rw [← hc]
  · cases hc

/-- The keys of the room dict are pairwise distinct. -/
theorem buildRooms_keys_nodup (g : Grid) : ((buildRooms g).map Prod.fst).Nodup := by
  rw [buildRooms, List.map_flatMap]
  rw [List.nodup_flatMap]
  constructor
  · intro r _
    rw [List.map_filterMap]
    refine List.Nodup.filterMap ?_ (List.nodup_range WIDTH)
    intro a a2 bp hba hba2
    rw [Option.mem_def] at hba hba2
    split_ifs at hba with hc1
    · split_ifs at hba2 with hc2
      · rw [Option.map_some'] at hba hba2
        injection hba with hba
        injection hba2 with hba2
        rw [← hba2] at hba
        injection hba with h1 h2
      · cases hba2
    · cases hba
  · refine List.Pairwise.imp ?_ (List.nodup_range HEIGHT)
    intro a b hab
    intro x hxa hxb
    dsimp only at hxa hxb
    rw [List.map_filterMap] at hxa hxb
    exact hab ((key_first_of_mem g a x hxa).symm.trans (key_first_of_mem g b x hxb))

/-- Rooms looked up in the freshly built dict have no enemy and no item. -/
theorem lookup_buildRooms_fields (g : Grid) (pos : Pos) (rm : Room)
    (h : lookupRoom (buildRooms g) pos = some rm) : rm.enemy = none ∧ rm.item = none := by
  have hmem := lookupRoom_mem _ _ _ h
  rw [buildRooms, List.mem_flatMap] at hmem
  obtain ⟨r, _, hmem2⟩ := hmem
  rw [List.mem_filterMap] at hmem2
  obtain ⟨c, _, hc⟩ := hmem2
  split_ifs at hc with hcell
  injection hc with hc
  injection hc with h1 h2
  rw [← h2]
  exact ⟨rfl, rfl⟩

/-- Updates that keep both the enemy and the item fields (such as setting the
start or exit description) preserve them through a lookup. -/
theorem lookup_update_preserve (rooms : RoomList) (q : Pos) (f : Room → Room)
    (hf : ∀ rm, (f rm).enemy = rm.enemy ∧ (f rm).item = rm.item)
    (pos : Pos) (rm2 : Room) (h : lookupRoom (updateRoom rooms q f) pos = some rm2) :
    ∃ rm, lookupRoom rooms pos = some rm ∧ rm2.enemy = rm.enemy ∧ rm2.item = rm.item := by
  rw [lookupRoom_updateRoom] at h
  split_ifs at h with hpq
  · rcases hlk : lookupRoom rooms pos with _ | rm
    · rw [hlk] at h
      cases h
    · rw [hlk, Option.map_some'] at h
      injection h with h
      rw [← h]
      exact ⟨rm, rfl, (hf rm).1, (hf rm).2⟩
  · exact ⟨rm2, h, rfl, rfl⟩

/-- Enemy placement changes only the rooms in its position list, and never
touches an item field. -/
theorem placeEnemies_lookup (s : Draws) :
    ∀ (ps : List Pos) t rooms pos rm2,
      lookupRoom (placeEnemies s t rooms ps).1 pos = some rm2 →
      ∃ rm, lookupRoom rooms pos = some rm ∧ rm2.item = rm.item ∧
        (rm2.enemy = rm.enemy ∨ pos ∈ ps) := by
  intro ps
  induction ps with
  | nil =>
    intro t rooms pos rm2 h
    exact ⟨rm2, h, rfl, Or.inl rfl⟩
  | cons p rest ih =>
    intro t rooms pos rm2 h
    simp only [placeEnemies] at h
    obtain ⟨rm1, h1, hitem, henemy⟩ := ih _ _ _ _ h
    rw [lookupRoom_updateRoom] at h1
    split_ifs at h1 with hpq
    · rcases hlk : lookupRoom rooms pos with _ | rm
      · rw [hlk] at h1
        cases h1
      · rw [hlk, Option.map_some'] at h1
        injection h1 with h1
        refine ⟨rm, rfl, ?_, Or.inr (by rw [hpq]; exact List.mem_cons_self p rest)⟩
        rw [hitem, ← h1]
    · refine ⟨rm1, h1, hitem, ?_⟩
      rcases henemy with he | he
      · exact Or.inl he
      · exact Or.inr (List.mem_cons_of_mem p he)

/-- Item placement changes only the rooms in its position list, and never
touches an enemy field. -/
theorem placeItems_lookup (pool : List Item) :
    ∀ (ps : List Pos) idx rooms pos rm2,
      lookupRoom (placeItems pool idx rooms ps) pos = some rm2 →
      ∃ rm, lookupRoom rooms pos = some rm ∧ rm2.enemy = rm.enemy ∧
        (rm2.item = rm.item ∨ pos ∈ ps) := by
  intro ps
  induction ps with
  | nil =>
    intro idx rooms pos rm2 h
    exact ⟨rm2, h, rfl, Or.inl rfl⟩
  | cons p rest ih =>
    intro idx rooms pos rm2 h
    simp only [placeItems] at h
    obtain ⟨rm1, h1, henemy, hitem⟩ := ih _ _ _ _ h
    rw [lookupRoom_updateRoom] at h1
    split_ifs at h1 with hpq
    · rcases hlk : lookupRoom rooms pos with _ | rm
      · rw [hlk] at h1
        cases h1
      · rw [hlk, Option.map_some'] at h1
        injection h1 with h1
        refine ⟨rm, rfl, ?_, Or.inr (by rw [hpq]; exact List.mem_cons_self p rest)⟩
        rw [henemy, ← h1]
    · refine ⟨rm1, h1, henemy, ?_⟩
      rcases hitem with hi | hi
      · exact Or.inl hi
      · exact Or.inr (List.mem_cons_of_mem p hi)

/-- The description pass touches neither enemies nor items. -/
theorem assignDescs_lookup (s : Draws) :
    ∀ (rooms : RoomList) t pos rm2,
      lookupRoom (assignDescs s t rooms).1 pos = some rm2 →
      ∃ rm, lookupRoom rooms pos = some rm ∧ rm2.enemy = rm.enemy ∧ rm2.item = rm.item := by
  intro rooms
  induction rooms with
  | nil =>
    intro t pos rm2 h
    cases h
  | cons e rest ih =>
    obtain ⟨p, rm⟩ := e
    intro t pos rm2 h
    simp only [assignDescs] at h
    split_ifs at h with hdesc
    · simp only [lookupRoom] at h
      split_ifs at h with hpq
      · injection h with h
        rw [← h]
        refine ⟨rm, ?_, rfl, rfl⟩
        simp only [lookupRoom, if_pos hpq]
      · obtain ⟨rm1, h1, he, hi⟩ := ih _ _ _ h
        refine ⟨rm1, ?_, he, hi⟩
        simp only [lookupRoom, if_neg hpq]
        exact h1
    · simp only [lookupRoom] at h
      split_ifs at h with hpq
      · injection h with h
        rw [← h]
        refine ⟨rm, ?_, rfl, rfl⟩
        simp only [lookupRoom, if_pos hpq]
      · obtain ⟨rm1, h1, he, hi⟩ := ih _ _ _ h
        refine ⟨rm1, ?_, he, hi⟩
        simp only [lookupRoom, if_neg hpq]
        exact h1

/-- Key sequences survive the start and exit updates. -/
theorem keys_nodup_after_updates (g : Grid) (p1 p2 : Pos) (f1 f2 : Room → Room) :
    ((updateRoom (updateRoom (buildRooms g) p1 f1) p2 f2).map Prod.fst).Nodup := by
  rw [updateRoom_keys, updateRoom_keys]
  exact buildRooms_keys_nodup g

/-- No room of a generated room list holds both an enemy and an item: items
are placed only into positions not chosen for enemies. -/
theorem genRooms_no_both (s : Draws) (t : Nat) (g : Grid) (pos : Pos) (rm : Room)
    (h : lookupRoom (genRooms s t g) pos = some rm) :
    rm.enemy = none ∨ rm.item = none := by
  simp only [genRooms] at h
  obtain ⟨rm4, h4, he4, hi4⟩ := assignDescs_lookup s _ _ _ _ h
  obtain ⟨rm3, h3, he3, hi3⟩ := placeItems_lookup _ _ _ _ _ _ h4
  obtain ⟨rm2, h2, hitem2, henemy2⟩ := placeEnemies_lookup s _ _ _ _ _ h3
  obtain ⟨rm1, h1, he1, hi1⟩ :=
    lookup_update_preserve _ _ _ (by intro rm0; exact ⟨rfl, rfl⟩) _ _ h2
  obtain ⟨rm0, h0, he0, hi0⟩ :=
    lookup_update_preserve _ _ _ (by intro rm0; exact ⟨rfl, rfl⟩) _ _ h1
  obtain ⟨heN, hiN⟩ := lookup_buildRooms_fields g _ _ h0
  by_cases hen : rm.enemy = none
  · exact Or.inl hen
  · right
    rcases henemy2 with hsame | hmemE
    · exfalso
      apply hen
      rw [he4, he3, hsame, he1, he0, heN]
    · rcases hi3 with hsameI | hmemI
      · rw [hi4, hsameI, hitem2, hi1, hi0, hiN]
      · exfalso
        have hdrop := (shuffle_perm s _ _).mem_iff.mp (List.mem_of_mem_take hmemI)
        exact List.disjoint_take_drop
          ((List.Perm.nodup_iff (shuffle_perm s t _)).mpr
            (List.Nodup.filter _ (keys_nodup_after_updates g _ _ _ _)))
          (le_refl _) hmemE hdrop

/-- C3 counterexample: the claim that some sequence of RNG draws yields a
dungeon with a room holding both a non-empty enemy and a non-empty item is
false — no draw stream and no fuel produce one. -/
theorem C3_counterexample :
    ¬ ∃ (s : Draws) (fuel : Nat) (d : Dungeon) (pos : Pos) (rm : Room),
      generate_dungeon s fuel = some d ∧ lookupRoom d.rooms pos = some rm ∧
      rm.enemy.isSome = true ∧ rm.item.isSome = true := by
  rintro ⟨s, fuel, d, pos, rm, hgen, hlk, he, hi⟩
  rw [generate_dungeon.eq_def] at hgen
  split at hgen
  · cases hgen
  · next g i2 heq =>
    cases hgen
    rcases genRooms_no_both s i2 g pos rm hlk with hn | hn
    · rw [hn] at he
      simp at he
    · rw [hn] at hi
      simp at hi

/-- C3 as amended: in every generated dungeon, a room holding an enemy holds
no item — the enemy rooms and the item rooms are disjoint, because items are
placed only into eligible rooms not chosen for enemies. -/
theorem C3_no_enemy_item_overlap (s : Draws) (fuel : Nat) (d : Dungeon)
    (hgen : generate_dungeon s fuel = some d) (pos : Pos) (rm : Room)
    (hlk : lookupRoom d.rooms pos = some rm) (he : rm.enemy.isSome = true) :
    rm.item = none := by
  rw [generate_dungeon.eq_def] at hgen
  split at hgen
  · cases hgen
  · next g i2 heq =>
    cases hgen
    rcases genRooms_no_both s i2 g pos rm hlk with hn | hn
    · rw [hn] at he
      simp at he
    · exact hn

/-- Witness for the amended C3: in the dungeon generated from the all-zeros
stream, room (2,0) holds an enemy, hence no item. -/
theorem C3_witness :
    (Option.getD (lookupRoom D0.rooms (2, 0)) ⟨none, none, false, ""⟩).item = none :=
  C3_no_enemy_item_overlap s0 20 D0 (by decide) (2, 0) _ (by decide) (by decide)

end Crawler
